import Mathlib

/-!
Verification of the face/voice registration core of the `real-ar` repository.

The definitions below are shallow embeddings of the Python sources:
* `src/real_ar/voice_processing/voice_recognition.py` — the registration
  dialog (`get_voice_input`, `get_yes_no_response`, `prompt_for_name`,
  `prompt_for_notes`, `prompt_for_category`), modelled as a phase machine
  driven by a script of transcription results (`none` = recording or
  transcription failure, `some s` = transcript `s`).
* `src/real_ar/main.py` — `register_new_face`'s commit step, the run-loop
  registration handoff, and the coordination flags.
* `src/real_ar/voice_processing/voice_activation.py` — the VAD buffer
  (`process_audio_chunk`) and the wake-word listen loop
  (`listen_for_wake_word`), with transcription as an oracle function.
* `src/real_ar/voice_processing/database/database.py` — the sqlite table
  `face_notes`, modelled as a list of rows in insertion order with an
  autoincrement counter; a fetched row is modelled as a `List Nat` so that
  the tuple `(id,)` is distinguishable from a bare id.
-/

namespace RealAR

/-- Python's substring test `needle in hay` on strings. -/
def strContains (hay needle : String) : Bool :=
  hay.data.tails.any (fun t => needle.data.isPrefixOf t)

/-- Python's `str.lower` for the ASCII transcripts this system handles. -/
def lowerStr (s : String) : String :=
  ⟨s.data.map Char.toLower⟩

/-- Python's `str.strip` for the ASCII transcripts this system handles:
drop leading and trailing whitespace. -/
def trimStr (s : String) : String :=
  ⟨((s.data.dropWhile Char.isWhitespace).reverse.dropWhile Char.isWhitespace).reverse⟩

/-- Left-to-right, non-overlapping replacement of a non-empty pattern, with
the input length as structural fuel (each step consumes at least one
character, so the fuel suffices). -/
def replaceFuel (pat rep : List Char) : Nat → List Char → List Char
  | 0, l => l
  | _ + 1, [] => []
  | fuel + 1, c :: rest =>
    if pat.isPrefixOf (c :: rest) && !pat.isEmpty then
      rep ++ replaceFuel pat rep fuel (List.drop pat.length (c :: rest))
    else c :: replaceFuel pat rep fuel rest

/-- Python's `str.replace old new` (for a non-empty `old`). -/
def replaceStr (s pat rep : String) : String :=
  ⟨replaceFuel pat.data rep.data s.data.length s.data⟩

/-- Transcript cleaning performed at the end of `get_voice_input`
(voice_recognition.py lines 287-297): if the wake word "register" occurs in
the lowered transcript, lower it, delete every occurrence of the wake word
and strip surrounding whitespace; otherwise return the transcript as is. -/
def cleanTranscript (s : String) : String :=
  if strContains (lowerStr s) "register" then
    trimStr (replaceStr (lowerStr s) "register" "")
  else s

/-- Interpretation of one (already cleaned) response inside
`get_yes_no_response` (voice_recognition.py lines 242-258): lower it, then
`some true` if it contains "yes", else `some false` if it contains "no",
else `none` (re-ask). -/
def yesNoOf (s : String) : Option Bool :=
  let r := lowerStr s
  if strContains r "yes" then some true
  else if strContains r "no" then some false
  else none

/-- Control point of the registration dialog.  `askX` is the capture loop of
field X (`prompt_for_*` before confirmation), `confirmX` is the confirmation
loop (`get_yes_no_response`), `done` means all three fields were confirmed. -/
inductive Phase
  | askName
  | confirmName (name : String)
  | askNotes (name : String)
  | confirmNotes (name notes : String)
  | askCategory (name notes : String)
  | confirmCategory (name notes cat : String)
  | done (name notes cat : String)
deriving DecidableEq

/-- Confirmation events: a "yes" accepted for the given field. -/
inductive DEvent
  | yesName
  | yesNotes
  | yesCat
deriving DecidableEq

/-- One dialog step: consume one `get_voice_input` result and move to the
next phase, emitting a confirmation event when a field is confirmed.
Faithful to `prompt_for_name` / `prompt_for_notes` / `prompt_for_category` /
`get_yes_no_response` in voice_recognition.py: a `none` (failed) or empty
cleaned transcript re-captures; an unclear confirmation re-asks; "no"
restarts the field's capture; "yes" advances.  `prompt_for_category` returns
`category if category else "Other"` on a confirmed category. -/
def dialogStepEv : Phase → Option String → Phase × List DEvent
  | Phase.askName, none => (Phase.askName, [])
  | Phase.askName, some s =>
    let n := cleanTranscript s
    if n = "" then (Phase.askName, []) else (Phase.confirmName n, [])
  | Phase.confirmName n, none => (Phase.confirmName n, [])
  | Phase.confirmName n, some s =>
    match yesNoOf (cleanTranscript s) with
    | some true => (Phase.askNotes n, [DEvent.yesName])
    | some false => (Phase.askName, [])
    | none => (Phase.confirmName n, [])
  | Phase.askNotes n, none => (Phase.askNotes n, [])
  | Phase.askNotes n, some s =>
    let v := cleanTranscript s
    if v = "" then (Phase.askNotes n, []) else (Phase.confirmNotes n v, [])
  | Phase.confirmNotes n v, none => (Phase.confirmNotes n v, [])
  | Phase.confirmNotes n v, some s =>
    match yesNoOf (cleanTranscript s) with
    | some true => (Phase.askCategory n v, [DEvent.yesNotes])
    | some false => (Phase.askNotes n, [])
    | none => (Phase.confirmNotes n v, [])
  | Phase.askCategory n v, none => (Phase.askCategory n v, [])
  | Phase.askCategory n v, some s =>
    let c := cleanTranscript s
    if c = "" then (Phase.askCategory n v, []) else (Phase.confirmCategory n v c, [])
  | Phase.confirmCategory n v c, none => (Phase.confirmCategory n v c, [])
  | Phase.confirmCategory n v c, some s =>
    match yesNoOf (cleanTranscript s) with
    | some true => (Phase.done n v (if c = "" then "Other" else c), [DEvent.yesCat])
    | some false => (Phase.askCategory n v, [])
    | none => (Phase.confirmCategory n v c, [])
  | Phase.done n v c, _ => (Phase.done n v c, [])

/-- Run the dialog over a finite script of `get_voice_input` results,
collecting confirmation events.  An exhausted script models an abort
(exception) in whatever phase the dialog was in. -/
def runEv : Phase → List (Option String) → Phase × List DEvent
  | p, [] => (p, [])
  | p, i :: rest =>
    let st := dialogStepEv p i
    let r := runEv st.1 rest
    (r.1, st.2 ++ r.2)

/-- Final phase of the dialog on a script. -/
def runDialog (p : Phase) (script : List (Option String)) : Phase :=
  (runEv p script).1

/-- Confirmation events emitted by a full dialog started at the name field. -/
def dialogEvents (script : List (Option String)) : List DEvent :=
  (runEv Phase.askName script).2

/-- A committed registration record (main.py `register_new_face`): the
dialog must have reached `done`; `if not name` aborts; main.py applies
`or ""` to notes and `or "Other"` to category. -/
structure RegRecord where
  name : String
  notes : String
  category : String
deriving DecidableEq

/-- Outcome of `register_new_face`'s dialog part on a script: `some` record
exactly when the dialog completed (reached `done`) with a non-empty name. -/
def registerResult (script : List (Option String)) : Option RegRecord :=
  match runDialog Phase.askName script with
  | Phase.done n v c =>
    if n = "" then none
    else some ⟨n, (if v = "" then "" else v), (if c = "" then "Other" else c)⟩
  | _ => none

/-- Row of the sqlite table `face_notes` (database.py `create_table`). -/
structure NoteRow where
  id : Nat
  name : String
  notes : String
  category : String
deriving DecidableEq

/-- The sqlite store: rows in insertion order plus the AUTOINCREMENT
counter.  A table scan visits rows in rowid order, i.e. list order here. -/
structure SqlDb where
  nextId : Nat
  rows : List NoteRow
deriving DecidableEq

/-- Store invariant: ids strictly increase in insertion order (AUTOINCREMENT)
and are all below the counter. -/
def dbOk (db : SqlDb) : Prop :=
  (db.rows.map NoteRow.id).Pairwise (· < ·) ∧ ∀ r ∈ db.rows, r.id < db.nextId

/-- `Database.store_notes`: INSERT a new row, taking the next id. -/
def store_notes (db : SqlDb) (name notes category : String) : SqlDb :=
  { nextId := db.nextId + 1
    rows := db.rows ++ [⟨db.nextId, name, notes, category⟩] }

/-- `Database.get_id`: `SELECT id FROM face_notes WHERE name = ?` followed by
`fetchone()`; the fetched row is the one-element tuple `(id,)`, modelled as a
singleton list, or `None` when no row matches. -/
def get_id (db : SqlDb) (name : String) : Option (List Nat) :=
  (db.rows.find? (fun r => r.name == name)).map (fun r => [r.id])

/-- `Database.edit`: UPDATE the matching rows (possibly none), commit, and
`return True` unconditionally. -/
def edit (db : SqlDb) (i : Nat) (name notes category : String) : SqlDb × Bool :=
  ({ db with
      rows := db.rows.map (fun r =>
        if r.id == i then { r with name := name, notes := notes, category := category }
        else r) },
    true)

/-- Store mutations performed by `register_new_face` after the dialog
(main.py lines 270-274): `store_voice_notes` (an INSERT) and
`face_db.add_face(encoding, id)` where `id` is whatever `get_id` fetched. -/
inductive StoreCall
  | notesCall (name notes category : String)
  | faceCall (idArg : Option (List Nat))
deriving DecidableEq

/-- `register_new_face` against a store: when the dialog commits, INSERT the
record, fetch the id with `get_id`, and add the face under that fetched
value; on any abort no store is touched. -/
def registerRun (db : SqlDb) (script : List (Option String)) : SqlDb × List StoreCall :=
  match registerResult script with
  | none => (db, [])
  | some r =>
    let db1 := store_notes db r.name r.notes r.category
    (db1, [StoreCall.notesCall r.name r.notes r.category,
           StoreCall.faceCall (get_id db1 r.name)])

/-- Dialog progress measure: how many fields are confirmed so far. -/
def stage : Phase → Nat
  | Phase.askName => 0
  | Phase.confirmName _ => 0
  | Phase.askNotes _ => 1
  | Phase.confirmNotes _ _ => 1
  | Phase.askCategory _ _ => 2
  | Phase.confirmCategory _ _ _ => 2
  | Phase.done _ _ _ => 3

/-- Stage reached by the confirmation that emits the given event. -/
def evStage : DEvent → Nat
  | DEvent.yesName => 1
  | DEvent.yesNotes => 2
  | DEvent.yesCat => 3

/-- Non-emptiness of the field values stored in a phase: every captured
value passed a `!= ""` guard in its `prompt_for_*` loop. -/
def phaseOk : Phase → Prop
  | Phase.askName => True
  | Phase.confirmName n => n ≠ ""
  | Phase.askNotes n => n ≠ ""
  | Phase.confirmNotes n v => n ≠ "" ∧ v ≠ ""
  | Phase.askCategory n v => n ≠ "" ∧ v ≠ ""
  | Phase.confirmCategory n v c => n ≠ "" ∧ v ≠ "" ∧ c ≠ ""
  | Phase.done n v c => n ≠ "" ∧ v ≠ "" ∧ c ≠ ""

/-- One audio frame: opaque payload identifier together with its VAD
classification (`true` = speech, as `vad.is_speech` returns for it). -/
abbrev Frame := Nat × Bool

/-- `VoiceActivation.process_audio_chunk` (voice_activation.py lines 67-89)
on a well-sized chunk.  State is `(speech_detected, audio_buffer)`.  A speech
frame is appended and recording continues; a silence frame while speech was
detected ends the segment and returns the buffer (note: the buffer itself is
not cleared on that path — the `self.audio_buffer = []` after the `return`
only runs when the buffer was empty); a silence frame otherwise is a no-op. -/
def process_audio_chunk (st : Bool × List Frame) (f : Frame) :
    (Bool × List Frame) × Option (List Frame) :=
  if f.2 then ((true, st.2 ++ [f]), none)
  else if st.1 then
    (if st.2.length > 0 then ((false, st.2), some st.2) else ((false, []), none))
  else (st, none)

/-- One iteration of the read loop in `listen_for_wake_word` (lines 108-139):
process the chunk, and when a segment is returned, clear the buffer after
processing it (`self.audio_buffer = []`, line 139). -/
def listenStep (st : Bool × List Frame) (f : Frame) :
    (Bool × List Frame) × Option (List Frame) :=
  match process_audio_chunk st f with
  | (st1, some seg) => ((st1.1, []), some seg)
  | (st1, none) => (st1, none)

/-- Segments handed to save/transcribe by the read loop of
`listen_for_wake_word`, excluding the final flush. -/
def emittedSegs : (Bool × List Frame) → List Frame → List (List Frame)
  | _, [] => []
  | st, f :: fs =>
    match listenStep st f with
    | (st1, some seg) => seg :: emittedSegs st1 fs
    | (st1, none) => emittedSegs st1 fs

/-- Segments handed to save/transcribe over one whole listen window,
including the final flush of an in-progress buffer when the window expires
(`if self.speech_detected and self.audio_buffer`, lines 144-155). -/
def segsWithFlush : (Bool × List Frame) → List Frame → List (List Frame)
  | st, [] => if st.1 && !st.2.isEmpty then [st.2] else []
  | st, f :: fs =>
    match listenStep st f with
    | (st1, some seg) => seg :: segsWithFlush st1 fs
    | (st1, none) => segsWithFlush st1 fs

/-- `VoiceActivation.listen_for_wake_word` (lines 91-164) over one bounded
window of frames, with transcription as an oracle `tr` from segment to raw
transcript (`transcribe_audio` lowers it and turns every failure into "").
`w` is the stored wake word (`self.wake_word`, lowered at construction).
Mid-loop: a non-empty transcript containing the wake word returns `true`
immediately.  At window expiry, one final flush-and-transcribe attempt is
made on an in-progress buffer; otherwise `false`. -/
def listen_for_wake_word (w : String) (tr : List Frame → String) :
    (Bool × List Frame) → List Frame → Bool
  | st, [] =>
    if st.1 && !st.2.isEmpty then
      (let text := lowerStr (tr st.2)
       (text != "") && strContains text w)
    else false
  | st, f :: fs =>
    match listenStep st f with
    | (st1, some seg) =>
      let text := lowerStr (tr seg)
      if (text != "") && strContains text w then true
      else listen_for_wake_word w tr st1 fs
    | (st1, none) => listen_for_wake_word w tr st1 fs

/-- Following the spec's words: the number of maximal contiguous runs of
speech frames, counted at run starts (a speech frame whose predecessor is
missing or silence). -/
def specMaximalRuns (frames : List Frame) : Nat :=
  ((((0, false) : Frame) :: frames).zip frames).countP (fun p => !p.1.2 && p.2.2)

/-- Following the spec's words: the number of maximal contiguous runs of
speech frames that are terminated by a silence frame, counted at
speech-to-silence boundaries. -/
def specTerminatedRuns (frames : List Frame) : Nat :=
  (frames.zip frames.tail).countP (fun p => p.1.2 && !p.2.2)

/-- Whether the first frame, if any, is silence. -/
def headIsSilence : List Frame → Bool
  | [] => false
  | f :: _ => !f.2

/-- Segment count of the read loop starting from a given `speech_detected`
flag, read off the classification sequence. -/
def gcount : Bool → List Frame → Nat
  | _, [] => 0
  | sd, f :: fs => (if sd && !f.2 then 1 else 0) + gcount f.2 fs

/-- File-system operations; `voice_activation.py` only ever writes. -/
inductive FileOp
  | write (path : String)
  | remove (path : String)
deriving DecidableEq

/-- The fixed scratch path of `VoiceActivation.save_audio` (line 166-171):
`os.path.join("recordings", "recorded_audio.wav")`. -/
def scratchPath : String := "recordings/recorded_audio.wav"

/-- File operations performed by `listen_for_wake_word` over one window:
each segment (including the final flush) is written by `save_audio` to the
same fixed path; no code path removes a file, whether transcription
succeeds or fails; detection returns early. -/
def listenFileOps (w : String) (tr : List Frame → String) :
    (Bool × List Frame) → List Frame → List FileOp
  | st, [] =>
    if st.1 && !st.2.isEmpty then [FileOp.write scratchPath] else []
  | st, f :: fs =>
    match listenStep st f with
    | (st1, some seg) =>
      FileOp.write scratchPath ::
        (let text := lowerStr (tr seg)
         if (text != "") && strContains text w then [] else listenFileOps w tr st1 fs)
    | (st1, none) => listenFileOps w tr st1 fs

/-- The shared coordination flags of `IntegratedFaceVoiceSystem` plus the
"unknown faces list non-empty" signal. -/
structure SysState where
  listening : Bool
  regMode : Bool
  regRequested : Bool
  unknownPresent : Bool
deriving DecidableEq

/-- The lock-protected flag operations of main.py.  Each runs atomically
under `self.lock`:
* `setUnknown` — the main loop recomputing `self.unknown_faces` (line 331);
* `wakeCommit` — the voice listener thread detecting the wake word and
  committing `listening=False, regMode=True, regRequested=True` under its
  guard (lines 90-101);
* `mainCheck` — the main loop's request handoff (lines 345-356);
* `dialogReset` — `register_new_face`'s early-return / `finally` reset
  (lines 237-239 and 294-297);
* `postRegister` — the main loop's extra `listening_for_wake_word = True`
  after `register_new_face` returns (lines 370-371). -/
inductive SysOp
  | setUnknown (b : Bool)
  | wakeCommit
  | mainCheck
  | dialogReset
  | postRegister
deriving DecidableEq

/-- The main loop's registration handoff (main.py lines 344-356): if a
request is pending and an unknown face is present, clear the request flag
and capture the face (second component `true`); if a request is pending but
no unknown face remains, clear the request, exit registration mode and
re-enable listening, with no face captured; otherwise do nothing. -/
def mainLoopCheck (s : SysState) : SysState × Bool :=
  if s.regRequested && s.unknownPresent then
    ({ s with regRequested := false }, true)
  else if s.regRequested then
    ({ s with regRequested := false, regMode := false, listening := true }, false)
  else (s, false)

/-- Transition function of the flag system. -/
def sysStep (s : SysState) : SysOp → SysState
  | SysOp.setUnknown b => { s with unknownPresent := b }
  | SysOp.wakeCommit =>
    if s.listening && !s.regMode && s.unknownPresent then
      { s with listening := false, regMode := true, regRequested := true }
    else s
  | SysOp.mainCheck => (mainLoopCheck s).1
  | SysOp.dialogReset => { s with regMode := false, listening := true }
  | SysOp.postRegister => { s with listening := true }

/-- Initial flag state (main.py `__init__` lines 45-55): listening enabled,
no registration, no request, no unknown faces yet. -/
def sysInit : SysState := ⟨true, false, false, false⟩

/-- States reachable from the initial flag state under the lock-protected
operations, in any interleaving the two threads can produce. -/
inductive SysReachable : SysState → Prop
  | init : SysReachable sysInit
  | step (s : SysState) (op : SysOp) : SysReachable s → SysReachable (sysStep s op)

/-- The interleaving realised when a wake-word commit lands between the
dialog's `finally` reset and the main loop's post-registration
`listening_for_wake_word = True` (main.py line 371). -/
def raceSeq : List SysOp :=
  [SysOp.setUnknown true, SysOp.wakeCommit, SysOp.mainCheck,
   SysOp.dialogReset, SysOp.wakeCommit, SysOp.postRegister]

/-- Store calls performed by one main-loop iteration whose handoff step sees
state `s`: the dialog (and hence any store call) runs only when a face was
captured. -/
def mainIterStoreCalls (s : SysState) (db : SqlDb) (script : List (Option String)) :
    List StoreCall :=
  if (mainLoopCheck s).2 then (registerRun db script).2 else []

/-- Abstract actions of one iteration of `voice_listener_thread`
(main.py lines 61-110), in program order. -/
inductive VAct
  | readDisplayState
  | acquire
  | readFlags
  | updateDisplay
  | callListen
  | writeFlags
  | release
  | sleepPause
deriving DecidableEq

/-- The body of one `voice_listener_thread` iteration, by source line:
read `ar_display.wake_word_listening` (67), enter `with self.lock` (72),
read the flags (73), `ar_display.update_status` (82), the blocking
`voice_activation.listen_for_wake_word()` (93), the flag writes (99-101),
leave the `with` block, `time.sleep(0.2)` (110). -/
def voiceListenerBody : List VAct :=
  [VAct.readDisplayState, VAct.acquire, VAct.readFlags, VAct.updateDisplay,
   VAct.callListen, VAct.writeFlags, VAct.release, VAct.sleepPause]

/-- Whether the first occurrence of `a` in the trace runs while the lock is
held (positive acquire depth). -/
def heldDuringAux (depth : Nat) : List VAct → VAct → Bool
  | [], _ => false
  | x :: xs, a =>
    if x = a then decide (0 < depth)
    else
      match x with
      | VAct.acquire => heldDuringAux (depth + 1) xs a
      | VAct.release => heldDuringAux (depth - 1) xs a
      | _ => heldDuringAux depth xs a

/-- Whether action `a` runs while the lock is held. -/
def heldDuring (l : List VAct) (a : VAct) : Bool :=
  heldDuringAux 0 l a

/-! Helper lemmas. -/

theorem reachable_foldl (l : List SysOp) :
    ∀ s, SysReachable s → SysReachable (List.foldl sysStep s l) := by
  induction l with
  | nil => intro s h; exact h
  | cons op t ih => intro s h; exact ih _ (SysReachable.step s op h)

theorem emittedSegs_length_eq (frames : List Frame) :
    ∀ sd buf, (sd = true → buf ≠ []) →
      (emittedSegs (sd, buf) frames).length = gcount sd frames := by
  induction frames with
  | nil => intro sd buf _; rfl
  | cons f fs ih =>
    intro sd buf h
    by_cases hf : f.2 = true
    · have hstep : listenStep (sd, buf) f = ((true, buf ++ [f]), none) := by
        simp [listenStep, process_audio_chunk, hf]
      simp only [emittedSegs, hstep, gcount, hf, Bool.not_true, Bool.and_false,
        Bool.false_eq_true, if_false, Nat.zero_add]
      exact ih true (buf ++ [f]) (by simp)
    · have hf2 : f.2 = false := by simpa using hf
      cases sd with
      | true =>
        have hb : buf ≠ [] := h rfl
        have hlen : buf.length > 0 := List.length_pos.mpr hb
        have hstep : listenStep (true, buf) f = ((false, []), some buf) := by
          simp [listenStep, process_audio_chunk, hf2, hlen]
        simp only [emittedSegs, hstep, List.length_cons, gcount, hf2, Bool.not_false,
          Bool.and_true, if_true, Nat.add_comm]
        have := ih false [] (by simp)
        omega
      | false =>
        have hstep : listenStep (false, buf) f = ((false, buf), none) := by
          simp [listenStep, process_audio_chunk, hf2]
        simp only [emittedSegs, hstep, gcount, hf2, Bool.false_and, Bool.false_eq_true,
          if_false, Nat.zero_add]
        exact ih false buf (by simp)

theorem specTerminatedRuns_cons (f : Frame) (fs : List Frame) :
    specTerminatedRuns (f :: fs) =
      (if f.2 && headIsSilence fs then 1 else 0) + specTerminatedRuns fs := by
  cases fs with
  | nil => simp [specTerminatedRuns, headIsSilence]
  | cons g gs =>
    simp only [specTerminatedRuns, headIsSilence, List.tail_cons, List.zip_cons_cons,
      List.countP_cons]
    omega

theorem gcount_eq_terminated (frames : List Frame) :
    ∀ sd, gcount sd frames =
      (if sd && headIsSilence frames then 1 else 0) + specTerminatedRuns frames := by
  induction frames with
  | nil => intro sd; simp [gcount, specTerminatedRuns, headIsSilence]
  | cons f fs ih =>
    intro sd
    rw [gcount, ih f.2, specTerminatedRuns_cons]
    simp only [headIsSilence]

theorem emittedSegs_speech_only (frames : List Frame) :
    ∀ sd buf, (∀ f ∈ buf, f.2 = true) →
      ∀ seg ∈ emittedSegs (sd, buf) frames, ∀ f ∈ seg, f.2 = true := by
  induction frames with
  | nil => intro sd buf _ seg hseg; simp [emittedSegs] at hseg
  | cons f fs ih =>
    intro sd buf hbuf seg hseg
    by_cases hf : f.2 = true
    · have hstep : listenStep (sd, buf) f = ((true, buf ++ [f]), none) := by
        simp [listenStep, process_audio_chunk, hf]
      rw [emittedSegs, hstep] at hseg
      refine ih true (buf ++ [f]) ?_ seg hseg
      intro x hx
      rcases List.mem_append.mp hx with h | h
      · exact hbuf x h
      · rcases List.mem_singleton.mp h with rfl; exact hf
    · have hf2 : f.2 = false := by simpa using hf
      cases sd with
      | true =>
        rcases hb : buf with _ | ⟨b0, brest⟩
        · have hstep : listenStep (true, []) f = ((false, []), none) := by
            simp [listenStep, process_audio_chunk, hf2]
          rw [hb] at hseg
          rw [emittedSegs, hstep] at hseg
          exact ih false [] (by simp) seg hseg
        · have hlen : buf.length > 0 := by rw [hb]; simp
          have hstep : listenStep (true, buf) f = ((false, []), some buf) := by
            simp [listenStep, process_audio_chunk, hf2, hlen]
          rw [emittedSegs, hstep] at hseg
          rcases List.mem_cons.mp hseg with rfl | h
          · exact hbuf
          · exact ih false [] (by simp) seg h
      | false =>
        have hstep : listenStep (false, buf) f = ((false, buf), none) := by
          simp [listenStep, process_audio_chunk, hf2]
        rw [emittedSegs, hstep] at hseg
        exact ih false buf hbuf seg hseg

/-! Claim theorems. -/

/-- C10: `Database.edit` returns `True` unconditionally, including when no
row with the given id exists (the UPDATE then matches zero rows and the
table is unchanged), so a `True` result does not imply any row was
modified. -/
theorem edit_always_true (db : SqlDb) (i : Nat) (nm nts cat : String) :
    (edit db i nm nts cat).2 = true ∧
    ((∀ r ∈ db.rows, r.id ≠ i) → (edit db i nm nts cat).1 = db) := by
  obtain ⟨n0, rows0⟩ := db
  refine ⟨rfl, fun h => ?_⟩
  simp only [edit]
  have hmap : ∀ l : List NoteRow, (∀ r ∈ l, r.id ≠ i) →
      l.map (fun r => if r.id == i then
        { r with name := nm, notes := nts, category := cat } else r) = l := by
    intro l
    induction l with
    | nil => intro _; rfl
    | cons a t ih =>
      intro hl
      have ha : (a.id == i) = false :=
        beq_eq_false_iff_ne.mpr (hl a (List.mem_cons_self a t))
      simp only [List.map_cons, ha, Bool.false_eq_true, if_false,
        ih (fun r hr => hl r (List.mem_cons_of_mem a hr))]
  simp only at h
  rw [hmap rows0 h]

/-- C10 witness: editing an id that is absent still returns the store
unchanged (and, by the first conjunct, `True`). -/
theorem edit_always_true_witness :
    (edit ⟨1, []⟩ 5 "a" "b" "c").1 = (⟨1, []⟩ : SqlDb) :=
  (edit_always_true ⟨1, []⟩ 5 "a" "b" "c").2 (by simp)

/-- C6: when the main loop observes a pending registration request with no
unknown face present, it clears the request, exits registration mode,
re-enables listening, captures no face, and no store call happens in that
iteration. -/
theorem abandoned_request_resets (s : SysState) (db : SqlDb)
    (script : List (Option String))
    (h1 : s.regRequested = true) (h2 : s.unknownPresent = false) :
    (mainLoopCheck s).1.regRequested = false ∧
    (mainLoopCheck s).1.regMode = false ∧
    (mainLoopCheck s).1.listening = true ∧
    (mainLoopCheck s).2 = false ∧
    mainIterStoreCalls s db script = [] := by
  obtain ⟨a, b, c, d⟩ := s
  simp only at h1 h2
  subst h1; subst h2
  simp [mainLoopCheck, mainIterStoreCalls]

/-- C6 witness: a concrete abandoned request writes nothing to the store. -/
theorem abandoned_request_resets_witness :
    mainIterStoreCalls ⟨false, true, true, false⟩ ⟨1, []⟩ [] = [] :=
  (abandoned_request_resets ⟨false, true, true, false⟩ ⟨1, []⟩ [] rfl rfl).2.2.2.2

/-- C7 counterexample: in `voice_listener_thread`, both the display-status
update and the blocking wake-word detector call run while the lock is held,
contradicting the claim that the status is published outside the lock and
that the lock is released before the blocking call. -/
theorem lock_held_blocking_cex :
    heldDuring voiceListenerBody VAct.callListen = true ∧
    heldDuring voiceListenerBody VAct.updateDisplay = true := by decide

/-- C7 amended: the coordinator thread holds the lock across the flag read,
the display-status update, the blocking wake-word detector call and the flag
writes; only the initial display-state read, the acquire itself and the
inter-iteration sleep run without the lock. -/
theorem lock_held_profile :
    heldDuring voiceListenerBody VAct.readFlags = true ∧
    heldDuring voiceListenerBody VAct.updateDisplay = true ∧
    heldDuring voiceListenerBody VAct.callListen = true ∧
    heldDuring voiceListenerBody VAct.writeFlags = true ∧
    heldDuring voiceListenerBody VAct.readDisplayState = false ∧
    heldDuring voiceListenerBody VAct.acquire = false ∧
    heldDuring voiceListenerBody VAct.sleepPause = false := by decide

/-- C5 counterexample: the interleaving in which the voice thread commits a
fresh wake-word detection between `register_new_face`'s `finally` reset and
the main loop's post-registration `listening_for_wake_word = True` reaches a
state with `registration_mode = true` and `listening_for_wake_word = true`,
violating the claimed invariant. -/
theorem coordination_invariant_cex :
    SysReachable (List.foldl sysStep sysInit raceSeq) ∧
    (List.foldl sysStep sysInit raceSeq).regMode = true ∧
    (List.foldl sysStep sysInit raceSeq).listening = true :=
  ⟨reachable_foldl raceSeq sysInit SysReachable.init, by decide, by decide⟩

/-- C5 amended: every single flag operation that sets `registration_mode`
to true simultaneously sets `listening_for_wake_word` to false, and every
operation that clears `registration_mode` sets `listening_for_wake_word` to
true; the invariant can still break because `postRegister` sets listening
without touching `registration_mode`. -/
theorem coordination_flag_ops (s : SysState) (op : SysOp) :
    ((s.regMode = false ∧ (sysStep s op).regMode = true) →
      (sysStep s op).listening = false) ∧
    ((s.regMode = true ∧ (sysStep s op).regMode = false) →
      (sysStep s op).listening = true) := by
  obtain ⟨a, b, c, d⟩ := s
  cases op with
  | setUnknown u => revert a b c d u; decide
  | wakeCommit => revert a b c d; decide
  | mainCheck => revert a b c d; decide
  | dialogReset => revert a b c d; decide
  | postRegister => revert a b c d; decide

/-- C5 amended witness: a concrete wake-word commit that enters registration
mode turns listening off. -/
theorem coordination_flag_ops_witness :
    (sysStep ⟨true, false, false, true⟩ SysOp.wakeCommit).listening = false :=
  (coordination_flag_ops ⟨true, false, false, true⟩ SysOp.wakeCommit).1 (by decide)

/-- C4 counterexample: a single speech frame with no terminating silence is
one maximal speech run, yet the buffer emits zero segments, refuting
"exactly one segment per maximal contiguous run of speech frames". -/
theorem vad_segments_cex :
    (emittedSegs (false, []) [(0, true)]).length = 0 ∧
    specMaximalRuns [(0, true)] = 1 := by decide

/-- C2 counterexample: inside the dialog an empty transcript for the notes
or category field is not accepted — the capture phase stays put (the prompt
re-captures) instead of advancing to confirmation with the empty value; a
following "yes" is consumed as the next capture attempt, not as a
confirmation of "". -/
theorem empty_transcript_recapture_cex :
    dialogStepEv (Phase.askNotes "alice") (some "") = (Phase.askNotes "alice", []) ∧
    dialogStepEv (Phase.askCategory "alice" "friendly") (some "") =
      (Phase.askCategory "alice" "friendly", []) ∧
    runDialog (Phase.askNotes "alice") [some "", some "yes"] =
      Phase.confirmNotes "alice" "yes" := by decide

/-- C8 counterexample: a window with one segment whose transcription
succeeds ("hello", non-empty, no wake word) performs exactly one file
operation — the write of the scratch file — and never removes it, refuting
"deleted after a successful transcription". -/
theorem scratch_file_retained_cex :
    listen_for_wake_word "register" (fun _ => "hello") (false, [])
      [(0, true), (1, false)] = false ∧
    listenFileOps "register" (fun _ => "hello") (false, [])
      [(0, true), (1, false)] = [FileOp.write scratchPath] := by decide

/-- C8 amended: the wake-word detector never deletes a scratch file,
whether transcription succeeds or fails; every file operation it performs is
a write of the same fixed path (each segment overwrites the previous one). -/
theorem scratch_files_never_deleted (w : String) (tr : List Frame → String)
    (st : Bool × List Frame) (frames : List Frame) :
    (listenFileOps w tr st frames).all (fun op => op == FileOp.write scratchPath) = true := by
  induction frames generalizing st with
  | nil =>
    simp only [listenFileOps]
    split
    · simp [scratchPath]
    · simp
  | cons f fs ih =>
    simp only [listenFileOps]
    rcases hstep : listenStep st f with ⟨st1, oseg⟩
    cases oseg with
    | none => simpa using ih st1
    | some seg =>
      simp only [List.all_cons, beq_self_eq_true, Bool.true_and]
      split
      · simp
      · exact ih st1

/-- C4 amended: over any classification sequence, the buffer emits exactly
one segment per maximal speech run that is terminated by a silence frame
(counted at speech-to-silence boundaries); a trailing in-progress run emits
nothing (the listen loop's final flush handles it instead); no emitted
segment contains a silence frame; silence-only input emits zero segments. -/
theorem vad_segments_spec (frames : List Frame) :
    (emittedSegs (false, []) frames).length = specTerminatedRuns frames ∧
    (∀ seg ∈ emittedSegs (false, []) frames, ∀ f ∈ seg, f.2 = true) ∧
    ((∀ f ∈ frames, f.2 = false) → emittedSegs (false, []) frames = []) := by
  have hlen : (emittedSegs (false, []) frames).length = specTerminatedRuns frames := by
    rw [emittedSegs_length_eq frames false [] (by simp), gcount_eq_terminated frames false]
    simp
  refine ⟨hlen, emittedSegs_speech_only frames false [] (by simp), fun hsil => ?_⟩
  have hzero : specTerminatedRuns frames = 0 := by
    rw [specTerminatedRuns, List.countP_eq_zero]
    intro p hp
    have h1 : p.1 ∈ frames := (List.of_mem_zip hp).1
    simp [hsil p.1 h1]
  rw [← List.length_eq_zero, hlen, hzero]

/-- C4 amended witness: a silence-only sequence emits zero segments. -/
theorem vad_segments_spec_witness :
    emittedSegs (false, []) [(0, false), (1, false)] = [] :=
  (vad_segments_spec [(0, false), (1, false)]).2.2 (by decide)

theorem data_ne_nil_of_ne_empty (w : String) (hw : w ≠ "") : w.data ≠ [] := by
  intro h
  apply hw
  cases w with
  | mk d =>
    simp only at h
    rw [h]

theorem strContains_empty_eq_false (w : String) (hw : w ≠ "") :
    strContains "" w = false := by
  have h := data_ne_nil_of_ne_empty w hw
  rcases hd : w.data with _ | ⟨c, cs⟩
  · exact absurd hd h
  · simp [strContains, hd, List.isPrefixOf]

theorem bne_and_contains (w t : String) (hw : w ≠ "") :
    ((t != "") && strContains t w) = strContains t w := by
  by_cases ht : t = ""
  · subst ht
    rw [strContains_empty_eq_false w hw]
    simp
  · have h1 : (t != "") = true := by simpa using ht
    rw [h1, Bool.true_and]

theorem listen_iff_aux (w : String) (tr : List Frame → String) (hw : w ≠ "") :
    ∀ (frames : List Frame) (st : Bool × List Frame),
      listen_for_wake_word w tr st frames = true ↔
        ∃ seg ∈ segsWithFlush st frames, strContains (lowerStr (tr seg)) w = true := by
  intro frames
  induction frames with
  | nil =>
    intro st
    simp only [listen_for_wake_word, segsWithFlush]
    cases hc : (st.1 && !st.2.isEmpty) with
    | false => simp
    | true =>
      simp only [if_true]
      rw [bne_and_contains w (lowerStr (tr st.2)) hw]
      simp
  | cons f fs ih =>
    intro st
    rcases hstep : listenStep st f with ⟨st1, oseg⟩
    cases oseg with
    | none =>
      simp only [listen_for_wake_word, segsWithFlush, hstep]
      exact ih st1
    | some seg =>
      simp only [listen_for_wake_word, segsWithFlush, hstep]
      rw [bne_and_contains w (lowerStr (tr seg)) hw]
      by_cases hm : strContains (lowerStr (tr seg)) w = true
      · simp [hm]
      · have hm2 : strContains (lowerStr (tr seg)) w = false := by simpa using hm
        simp only [hm2, Bool.false_eq_true, if_false]
        rw [ih st1]
        simp [hm2]

/-- C3: over one bounded listen window started with a cleared buffer,
`listen_for_wake_word` returns true exactly when some emitted speech
segment — including the final flush of an in-progress buffer at window
expiry — has a transcript containing the (non-empty, stored lowercase)
trigger phrase as a substring of its lowered text, and false otherwise. -/
theorem wake_word_detected_iff (w : String) (tr : List Frame → String)
    (frames : List Frame) (hw : w ≠ "") :
    listen_for_wake_word w tr (false, []) frames = true ↔
      ∃ seg ∈ segsWithFlush (false, []) frames,
        strContains (lowerStr (tr seg)) w = true :=
  listen_iff_aux w tr hw frames (false, [])

/-- C3 witness: a window with one silence-terminated segment transcribed as
"register" detects the wake word; the matching segment is exhibited. -/
theorem wake_word_detected_iff_witness :
    listen_for_wake_word "register" (fun _ => "register") (false, [])
      [(0, true), (1, false)] = true :=
  (wake_word_detected_iff "register" (fun _ => "register")
      [(0, true), (1, false)] (by decide)).mpr
    ⟨[(0, true)], by decide, by decide⟩

theorem stage_step_mono (p : Phase) (i : Option String) :
    stage p ≤ stage (dialogStepEv p i).1 := by
  cases p <;> cases i <;> simp only [dialogStepEv] <;> (try split) <;>
    simp only [stage] <;> omega

theorem stage_step_succ (p : Phase) (i : Option String) :
    stage (dialogStepEv p i).1 ≤ stage p + 1 := by
  cases p <;> cases i <;> simp only [dialogStepEv] <;> (try split) <;>
    simp only [stage] <;> omega

theorem step_events (p : Phase) (i : Option String) (e : DEvent) :
    e ∈ (dialogStepEv p i).2 ↔
      (stage (dialogStepEv p i).1 = stage p + 1 ∧
        evStage e = stage (dialogStepEv p i).1) := by
  cases p <;> cases i <;> simp only [dialogStepEv] <;> (try split) <;>
    cases e <;> simp [stage, evStage]

theorem phaseOk_step (p : Phase) (i : Option String) (h : phaseOk p) :
    phaseOk (dialogStepEv p i).1 := by
  cases p <;> cases i <;> simp only [dialogStepEv] <;> (try split) <;>
    simp_all [phaseOk]

theorem stage_run_mono (script : List (Option String)) :
    ∀ p, stage p ≤ stage (runEv p script).1 := by
  induction script with
  | nil => intro p; exact Nat.le_refl _
  | cons i rest ih =>
    intro p
    have h1 := stage_step_mono p i
    have h2 := ih (dialogStepEv p i).1
    simp only [runEv]
    omega

theorem run_events (script : List (Option String)) :
    ∀ p e, e ∈ (runEv p script).2 ↔
      (stage p < evStage e ∧ evStage e ≤ stage (runEv p script).1) := by
  induction script with
  | nil =>
    intro p e
    simp only [runEv]
    constructor
    · intro h; exact absurd h (List.not_mem_nil e)
    · rintro ⟨h1, h2⟩; exact absurd (Nat.lt_of_lt_of_le h1 h2) (Nat.lt_irrefl _)
  | cons i rest ih =>
    intro p e
    simp only [runEv, List.mem_append]
    constructor
    · rintro (h | h)
      · obtain ⟨hst, hev⟩ := (step_events p i e).mp h
        have hm := stage_run_mono rest (dialogStepEv p i).1
        exact ⟨by omega, by omega⟩
      · obtain ⟨h1, h2⟩ := (ih (dialogStepEv p i).1 e).mp h
        have hms := stage_step_mono p i
        exact ⟨by omega, h2⟩
    · rintro ⟨h1, h2⟩
      by_cases hc : evStage e ≤ stage (dialogStepEv p i).1
      · left
        have hsu := stage_step_succ p i
        exact (step_events p i e).mpr ⟨by omega, by omega⟩
      · right
        exact (ih (dialogStepEv p i).1 e).mpr ⟨by omega, h2⟩

theorem phaseOk_run (script : List (Option String)) :
    ∀ p, phaseOk p → phaseOk (runDialog p script) := by
  induction script with
  | nil => intro p h; exact h
  | cons i rest ih =>
    intro p h
    exact ih (dialogStepEv p i).1 (phaseOk_step p i h)

theorem stage_le_three (p : Phase) : stage p ≤ 3 := by
  cases p <;> simp [stage]

theorem stage_eq_three (p : Phase) :
    stage p = 3 ↔ ∃ n v c, p = Phase.done n v c := by
  cases p <;> simp [stage]

/-- C1: the relational store and the embedding store are written if and only
if each of the three fields (name, notes, category) received an explicit
"yes" confirmation; a dialog that ends (aborts) before the name is
confirmed performs no store call and leaves the store unchanged. -/
theorem register_commit_iff_yes_confirms (db : SqlDb) (script : List (Option String)) :
    ((registerRun db script).2 ≠ [] ↔
      (DEvent.yesName ∈ dialogEvents script ∧ DEvent.yesNotes ∈ dialogEvents script ∧
        DEvent.yesCat ∈ dialogEvents script)) ∧
    ((runDialog Phase.askName script = Phase.askName ∨
        (∃ n, runDialog Phase.askName script = Phase.confirmName n)) →
      registerRun db script = (db, [])) := by
  have hev : ∀ e : DEvent, e ∈ dialogEvents script ↔
      (0 < evStage e ∧ evStage e ≤ stage (runDialog Phase.askName script)) := by
    intro e
    have h := run_events script Phase.askName e
    simpa [dialogEvents, runDialog, stage] using h
  constructor
  · constructor
    · intro hne
      rcases hr : registerResult script with _ | r
      · exact absurd (by simp [registerRun, hr]) hne
      · have hdone : stage (runDialog Phase.askName script) = 3 := by
          cases hd : runDialog Phase.askName script with
          | askName => simp [registerResult, hd] at hr
          | confirmName n => simp [registerResult, hd] at hr
          | askNotes n => simp [registerResult, hd] at hr
          | confirmNotes n v => simp [registerResult, hd] at hr
          | askCategory n v => simp [registerResult, hd] at hr
          | confirmCategory n v c => simp [registerResult, hd] at hr
          | done n v c => simp [stage]
        refine ⟨(hev DEvent.yesName).mpr ?_, (hev DEvent.yesNotes).mpr ?_,
          (hev DEvent.yesCat).mpr ?_⟩ <;> simp [evStage, hdone]
    · rintro ⟨h1, h2, h3⟩
      have hcat := (hev DEvent.yesCat).mp h3
      have hle := stage_le_three (runDialog Phase.askName script)
      have hs3 : stage (runDialog Phase.askName script) = 3 := by
        simp [evStage] at hcat
        omega
      obtain ⟨n, v, c, hd⟩ := (stage_eq_three (runDialog Phase.askName script)).mp hs3
      have hok := phaseOk_run script Phase.askName trivial
      rw [hd] at hok
      have hr : registerResult script =
          some ⟨n, (if v = "" then "" else v), (if c = "" then "Other" else c)⟩ := by
        simp [registerResult, hd, hok.1]
      simp [registerRun, hr]
  · intro h
    have hnone : registerResult script = none := by
      rcases h with hd | ⟨n, hd⟩ <;> simp [registerResult, hd]
    simp [registerRun, hnone]

/-- C1 witness: the empty script aborts while the name is still being
captured, and neither store is touched. -/
theorem register_commit_iff_yes_confirms_witness :
    registerRun ⟨1, []⟩ [] = (⟨1, []⟩, []) :=
  (register_commit_iff_yes_confirms ⟨1, []⟩ []).2 (Or.inl rfl)

/-- C2 amended: an empty (cleaned) transcript for notes or category is
treated like a failed capture — the prompt re-captures and the value never
reaches the yes/no confirmation — so every committed notes or category
value is non-empty and the defaults "" and "Other" are unreachable through
the empty-transcript path. -/
theorem empty_transcript_recapture (n v nm nv nc : String)
    (script : List (Option String)) :
    (∀ s, cleanTranscript s = "" →
      dialogStepEv (Phase.askNotes n) (some s) = (Phase.askNotes n, [])) ∧
    (∀ s, cleanTranscript s = "" →
      dialogStepEv (Phase.askCategory n v) (some s) = (Phase.askCategory n v, [])) ∧
    (runDialog Phase.askName script = Phase.done nm nv nc → nv ≠ "" ∧ nc ≠ "") := by
  refine ⟨fun s hs => ?_, fun s hs => ?_, fun hd => ?_⟩
  · simp [dialogStepEv, hs]
  · simp [dialogStepEv, hs]
  · have hok := phaseOk_run script Phase.askName trivial
    rw [hd] at hok
    exact ⟨hok.2.1, hok.2.2⟩

/-- C2 amended witness: a concrete completed dialog commits non-empty notes
("hi") and category ("friend"). -/
theorem empty_transcript_recapture_witness :
    ("hi" : String) ≠ "" ∧ ("friend" : String) ≠ "" :=
  (empty_transcript_recapture "a" "b" "x" "hi" "friend"
      [some "x", some "yes", some "hi", some "yes", some "friend", some "yes"]).2.2
    (by decide)

theorem find?_name_min (nm : String) :
    ∀ rows : List NoteRow, (rows.map NoteRow.id).Pairwise (· < ·) →
      ∀ r, rows.find? (fun x => x.name == nm) = some r →
        ∀ r2 ∈ rows, r2.name = nm → r.id ≤ r2.id := by
  intro rows
  induction rows with
  | nil => intro _ r hr; simp at hr
  | cons a t ih =>
    intro hp r hr r2 hr2 hname
    have hp1 : ∀ b ∈ t.map NoteRow.id, a.id < b :=
      (List.pairwise_cons.mp (by simpa using hp)).1
    by_cases ha : (a.name == nm) = true
    · simp only [List.find?, ha] at hr
      obtain rfl : a = r := by injection hr
      rcases List.mem_cons.mp hr2 with rfl | h
      · exact Nat.le_refl _
      · exact Nat.le_of_lt (hp1 r2.id (List.mem_map_of_mem NoteRow.id h))
    · have ha2 : (a.name == nm) = false := by simpa using ha
      simp only [List.find?, ha2] at hr
      rcases List.mem_cons.mp hr2 with rfl | h
      · exact absurd (beq_iff_eq.mpr hname) ha
      · exact ih (List.Pairwise.of_cons (by simpa using hp)) r hr r2 h hname

/-- C9: `Database.get_id` returns `None` exactly when no row has the given
name, and otherwise returns the raw fetched row — the one-element tuple
`(id,)`, modelled as the singleton list `[i]`, never a bare integer — where
`i` is the smallest id among the matching rows; the value
`register_new_face` then hands to `add_face` as the new face's id is exactly
that tuple. -/
theorem get_id_tuple_spec (db : SqlDb) (nm : String) (h : dbOk db) :
    (get_id db nm = none ↔ ∀ r ∈ db.rows, r.name ≠ nm) ∧
    (∀ v, get_id db nm = some v → ∃ i, v = [i] ∧
      (∃ r ∈ db.rows, r.id = i ∧ r.name = nm) ∧
      (∀ r ∈ db.rows, r.name = nm → i ≤ r.id)) ∧
    (∀ script rec, registerResult script = some rec →
      ∃ i, (registerRun db script).2 =
        [StoreCall.notesCall rec.name rec.notes rec.category,
         StoreCall.faceCall (some [i])]) := by
  refine ⟨?_, ?_, ?_⟩
  · simp [get_id, Option.map_eq_none', List.find?_eq_none]
  · intro v hv
    rw [get_id, Option.map_eq_some'] at hv
    obtain ⟨r, hfind, hval⟩ := hv
    refine ⟨r.id, hval.symm, ⟨r, List.mem_of_find?_eq_some hfind, rfl, ?_⟩, ?_⟩
    · have hpa := List.find?_some hfind
      simpa using hpa
    · exact find?_name_min nm db.rows h.1 r hfind
  · intro script rec hrec
    have hmem : ∃ x ∈ (store_notes db rec.name rec.notes rec.category).rows,
        (x.name == rec.name) = true := by
      refine ⟨⟨db.nextId, rec.name, rec.notes, rec.category⟩, ?_, ?_⟩
      · simp [store_notes]
      · simp
    have hsome := List.find?_isSome.mpr hmem
    obtain ⟨r, hr⟩ := Option.isSome_iff_exists.mp hsome
    refine ⟨r.id, ?_⟩
    simp [registerRun, hrec, get_id, hr]

/-- C9 witness: on a concrete store whose invariant holds, a name with no
row yields `None`. -/
theorem get_id_tuple_spec_witness :
    get_id ⟨3, [⟨1, "bob", "", "friend"⟩, ⟨2, "bob", "x", "y"⟩]⟩ "alice" = none :=
  ((get_id_tuple_spec ⟨3, [⟨1, "bob", "", "friend"⟩, ⟨2, "bob", "x", "y"⟩]⟩ "alice"
      (by constructor <;> decide)).1).mpr (by decide)

end RealAR
